import Mathlib

/-!
# SwarmX — verification of the natural-language specification

A shallow embedding of the SwarmX repository (Python) in Lean 4, covering the
event bus (`src/swarmx/core/event_bus.py`), the task scheduler
(`src/swarmx/core/scheduler.py`), the agent runtime (`src/swarmx/core/agent.py`)
and the config loader (`src/swarmx/utils/config.py`), together with theorems
settling the specification's claims.

Modelling conventions:
* Python strings are modelled as `List Char` (`PyStr`); the Python string
  operations used by the code (`split`, `join`, `startswith`, `endswith`,
  negative slicing) are reimplemented with Python semantics.
* Python dicts (insertion ordered) are modelled as association lists.
* `async` coroutines are modelled as pure state-passing functions: within one
  coroutine call chain, `await f()` is exactly sequential composition, which
  matches asyncio's cooperative single-thread semantics.
* Exceptions are modelled with `Except` / explicit outcome values; a
  `try/except` block is a `match` on the outcome.
* `time.time()` / `asyncio.sleep` are modelled with an explicit logical clock
  of type `ℚ` threaded through the scheduler state; `sleep d` advances it by
  `d`.
-/

namespace SwarmX

/-- Python strings, modelled as lists of characters. -/
abbrev PyStr := List Char

/-- Coerce a Lean string literal to the `PyStr` model. -/
def strL (s : String) : PyStr := s.data

/-- Python `s.split(sep)` for a single-character separator: splits at every
occurrence, keeping empty fragments (`"".split(".") == [""]`,
`"a..b".split(".") == ["a", "", "b"]`). -/
def pySplit (sep : Char) : PyStr → List PyStr
  | [] => [[]]
  | c :: cs =>
    let r := pySplit sep cs
    if c = sep then [] :: r
    else
      match r with
      | [] => [[c]]
      | w :: ws => (c :: w) :: ws

/-- Python `sep.join(ws)` for a single-character separator. -/
def pyJoin (sep : Char) : List PyStr → PyStr
  | [] => []
  | [w] => w
  | w :: ws => w ++ sep :: pyJoin sep ws

/-- Python `s.startswith(p)`: decides whether `p` is a leading piece of `s`. -/
def pyStartsWith (s p : PyStr) : Bool := decide (p <+: s)

/-- Python `s.endswith(p)`: decides whether `p` is a trailing piece of `s`. -/
def pyEndsWith (s p : PyStr) : Bool := decide (p <:+ s)

/-- Python `l[start:]` for an arbitrary (possibly negative) integer `start`:
a non-negative start drops that many leading elements; a negative start `-k`
keeps the last `min k (length l)` elements. -/
def pySliceFrom (l : List α) (start : Int) : List α :=
  if 0 ≤ start then l.drop start.toNat else l.drop (l.length - (-start).toNat)

/-! ### Basic facts about the Python string model -/

theorem pySplit_ne_nil (sep : Char) (l : PyStr) : pySplit sep l ≠ [] := by
  induction l with
  | nil => simp [pySplit]
  | cons c cs ih =>
    simp only [pySplit]
    split
    · simp
    · match h : pySplit sep cs with
      | [] => exact absurd h ih
      | w :: ws => simp

theorem pySplit_append (sep : Char) (a b : PyStr) :
    pySplit sep (a ++ sep :: b) = pySplit sep a ++ pySplit sep b := by
  induction a with
  | nil => simp [pySplit]
  | cons c cs ih =>
    obtain ⟨w, ws, h⟩ := List.exists_cons_of_ne_nil (pySplit_ne_nil sep cs)
    by_cases hc : c = sep
    · simp [pySplit, hc, ih]
    · simp [pySplit, hc, ih, h]

theorem pyJoin_pySplit (sep : Char) (l : PyStr) : pyJoin sep (pySplit sep l) = l := by
  induction l with
  | nil => simp [pySplit, pyJoin]
  | cons c cs ih =>
    obtain ⟨w, ws, h⟩ := List.exists_cons_of_ne_nil (pySplit_ne_nil sep cs)
    rw [h] at ih
    by_cases hc : c = sep
    · subst hc
      simp [pySplit, h, pyJoin, ih]
    · cases ws with
      | nil => simp_all [pySplit, pyJoin]
      | cons w2 ws2 => simp_all [pySplit, pyJoin]

theorem pyJoin_append (sep : Char) (a b : List PyStr) (ha : a ≠ []) (hb : b ≠ []) :
    pyJoin sep (a ++ b) = pyJoin sep a ++ sep :: pyJoin sep b := by
  induction a with
  | nil => exact absurd rfl ha
  | cons w ws ih =>
    cases ws with
    | nil =>
      cases b with
      | nil => exact absurd rfl hb
      | cons b1 bs => simp [pyJoin]
    | cons w2 ws2 =>
      have ih2 := ih (by simp)
      calc pyJoin sep ((w :: w2 :: ws2) ++ b)
          = w ++ sep :: pyJoin sep ((w2 :: ws2) ++ b) := by
            simp [pyJoin, List.cons_append]
        _ = w ++ sep :: (pyJoin sep (w2 :: ws2) ++ sep :: pyJoin sep b) := by rw [ih2]
        _ = pyJoin sep (w :: w2 :: ws2) ++ sep :: pyJoin sep b := by simp [pyJoin]

/-! ## Event bus — `src/swarmx/core/event_bus.py`

The bus state is the `EventBus.__init__` state. Handlers are modelled as pure
outcome functions `Event → Except String Unit` (`.error` models a raised
exception); the ghost field `invoked` logs every `await handler(event)` call
performed by `_safe_call`, as `(subscriber_id, event_id)` pairs, so delivery is
observable. `uuid`-generated subscriber ids are modelled by an opaque constant
(no claim depends on the generated value). -/

/-- `EventPriority` enum (`LOW = 0 < NORMAL = 1 < HIGH = 2 < CRITICAL = 3`). -/
inductive EventPriority where
  | low
  | normal
  | high
  | critical
deriving DecidableEq, Repr

/-- The `.value` of an `EventPriority` member. -/
def EventPriority.value : EventPriority → Nat
  | .low => 0
  | .normal => 1
  | .high => 2
  | .critical => 3

/-- An event flowing through the bus (`Event` dataclass); the fields the claims
never inspect (`timestamp`, `metadata`) are omitted, payload values are
modelled as strings. -/
structure Event where
  topic : PyStr
  payload : List (String × String)
  source : String
  event_id : String
  priority : EventPriority

/-- Internal subscription record (`_Subscription` dataclass). -/
structure Subscription where
  handler : Event → Except String Unit
  subscriber_id : String
  topic_pattern : PyStr
  priority : EventPriority

/-- Python `dict` lookup on an insertion-ordered association list. -/
def dictGet {κ α : Type} [DecidableEq κ] : List (κ × α) → κ → Option α
  | [], _ => none
  | p :: ps, k => if p.1 = k then some p.2 else dictGet ps k

/-- Python `dict` assignment: replace the value of an existing key, else append. -/
def dictSet {κ α : Type} [DecidableEq κ] (d : List (κ × α)) (k : κ) (v : α) :
    List (κ × α) :=
  if d.any (fun p => decide (p.1 = k)) then
    d.map (fun p => if p.1 = k then (p.1, v) else p)
  else d ++ [(k, v)]

/-- State of `EventBus`. `invoked` is a ghost log of handler invocations. -/
structure EventBus where
  subscriptions : List (PyStr × List Subscription)
  global_subscriptions : List Subscription
  queue : List Event
  max_queue_size : Nat
  running : Bool
  event_history : List Event
  max_history : Nat
  published : Nat
  dispatched : Nat
  errors : Nat
  invoked : List (String × String)

/-- `EventBus.__init__` with the default queue bound. -/
def emptyBus : EventBus :=
  { subscriptions := []
    global_subscriptions := []
    queue := []
    max_queue_size := 10000
    running := false
    event_history := []
    max_history := 1000
    published := 0
    dispatched := 0
    errors := 0
    invoked := [] }

/-- `EventBus.subscribe`: returns the updated bus and the subscriber id. -/
def subscribe (bus : EventBus) (topic : PyStr) (handler : Event → Except String Unit)
    (subscriber_id : String) (priority : EventPriority) : EventBus × String :=
  let sid := if subscriber_id = "" then "generated-id" else subscriber_id
  let sub : Subscription := ⟨handler, sid, topic, priority⟩
  if topic = strL "*" then
    ({ bus with global_subscriptions := bus.global_subscriptions ++ [sub] }, sid)
  else
    let cur := (dictGet bus.subscriptions topic).getD []
    ({ bus with subscriptions := dictSet bus.subscriptions topic (cur ++ [sub]) }, sid)

/-- The per-index wildcard candidates computed by `_dispatch_event` lines
236–240: for each `i`, `".".join(topic_parts[: i + 1]) + ".*"` when
`i < len(topic_parts) - 1`, else the falsy `""`. -/
def wildcardCandidates (topic : PyStr) : List PyStr :=
  let parts := pySplit '.' topic
  (List.range parts.length).map (fun i =>
    if i < parts.length - 1 then pyJoin '.' (parts.take (i + 1)) ++ strL ".*" else [])

/-- The exclusion list of `_dispatch_event` lines 246–249:
`".".join(topic_parts[: i + 1]) + ".*"` for every `i` (no truncation). -/
def fullWildcardList (topic : PyStr) : List PyStr :=
  let parts := pySplit '.' topic
  (List.range parts.length).map (fun i => pyJoin '.' (parts.take (i + 1)) ++ strL ".*")

/-- The handler-collection phase of `EventBus._dispatch_event` (lines 228–253):
exact-topic subscribers, enumerated ancestor wildcards, the parent-wildcard
scan over the subscription dict, then global listeners, in that order. -/
def collectHandlers (subs : List (PyStr × List Subscription))
    (globals : List Subscription) (topic : PyStr) : List Subscription :=
  let exact := (dictGet subs topic).getD []
  let wildcardSubs := (wildcardCandidates topic).flatMap
    (fun w => if w ≠ [] then (dictGet subs w).getD [] else [])
  let parentSubs := subs.flatMap (fun pr =>
    if pyEndsWith pr.1 (strL ".*") = true
        ∧ pyStartsWith topic (pr.1.take (pr.1.length - 2) ++ ['.']) = true
        ∧ pr.1 ∉ fullWildcardList topic
      then pr.2 else [])
  exact ++ wildcardSubs ++ parentSubs ++ globals

/-- `handlers.sort(key=lambda s: s.priority.value, reverse=True)`: Python's
sort is stable, so it is modelled by a stable insertion sort into descending
priority order. -/
def insertDesc (x : Subscription) : List Subscription → List Subscription
  | [] => [x]
  | y :: ys =>
    if x.priority.value < y.priority.value then y :: insertDesc x ys
    else x :: y :: ys

/-- Stable sort by descending priority (see `insertDesc`). -/
def sortDesc : List Subscription → List Subscription
  | [] => []
  | x :: xs => insertDesc x (sortDesc xs)

/-- Whether a handler function raises on an event. -/
def raisesF (h : Event → Except String Unit) (e : Event) : Bool :=
  match h e with
  | .ok _ => false
  | .error _ => true

/-- Whether a subscription's handler raises on an event. -/
def raises (s : Subscription) (e : Event) : Bool := raisesF s.handler e

/-- `EventBus._safe_call`: invoke the handler; a raised exception is caught and
counted in the `errors` statistic, and never propagates. -/
def safeCall (bus : EventBus) (handler : Event → Except String Unit) (event : Event)
    (subscriber_id : String) : EventBus :=
  let bus1 := { bus with invoked := bus.invoked ++ [(subscriber_id, event.event_id)] }
  match handler event with
  | .ok _ => bus1
  | .error _ => { bus1 with errors := bus1.errors + 1 }

/-- History recording of `_dispatch_event` lines 223–226. -/
def recordHistoryList (hist : List Event) (maxHist : Nat) (event : Event) : List Event :=
  let h := hist ++ [event]
  if maxHist < h.length then pySliceFrom h (-(maxHist : Int)) else h

/-- `EventBus._dispatch_event`: record history, collect and sort matching
handlers, run each through `_safe_call`, bump the dispatched counter. The
concurrent `asyncio.gather` is modelled by running every handler (effects on
the shared counters are atomic per handler in asyncio's single thread). -/
def dispatchEvent (bus : EventBus) (event : Event) : EventBus :=
  let bus1 := { bus with
    event_history := recordHistoryList bus.event_history bus.max_history event }
  let handlers := collectHandlers bus1.subscriptions bus1.global_subscriptions event.topic
  let bus2 := (sortDesc handlers).foldl
    (fun b s => safeCall b s.handler event s.subscriber_id) bus1
  { bus2 with dispatched := bus2.dispatched + 1 }

/-- `asyncio.Queue.put_nowait`: raises `QueueFull` exactly when the queue is
bounded (`maxsize > 0`) and at capacity; `asyncio.Queue` treats
`maxsize <= 0` as unbounded, so such a queue never raises. -/
def put_nowait (bus : EventBus) (event : Event) : Except String EventBus :=
  if 0 < bus.max_queue_size ∧ bus.max_queue_size ≤ bus.queue.length then
    .error "QueueFull"
  else .ok { bus with queue := bus.queue ++ [event] }

/-- `EventBus.publish_nowait`: enqueue, then bump the published counter. The
`QueueFull` exception is raised by the enqueue, before any mutation, and
propagates to the caller (second component), leaving the state unchanged. -/
def publish_nowait (bus : EventBus) (event : Event) : EventBus × Option String :=
  match put_nowait bus event with
  | .error msg => (bus, some msg)
  | .ok bus1 => ({ bus1 with published := bus1.published + 1 }, none)

/-- `EventBus.stop`: when running, clear the flag and drain every queued event
through `_dispatch_event` in FIFO order before halting. Handlers are pure
outcome functions in this model, so the drain loop visits exactly the events
queued when `stop` was called. -/
def stop (bus : EventBus) : EventBus :=
  if bus.running = false then bus
  else
    let bus1 := { bus with running := false }
    bus1.queue.foldl dispatchEvent { bus1 with queue := [] }

/-- `EventBus.recent_events`: Python `self._event_history[-limit:]`. -/
def recent_events (bus : EventBus) (limit : Nat) : List Event :=
  pySliceFrom bus.event_history (-(limit : Int))

/-- A sample event for witness instantiations. -/
def sampleEvent : Event := ⟨strL "t", [], "src", "e1", .normal⟩

/-- A second sample event. -/
def sampleEvent2 : Event := ⟨strL "u", [], "src", "e2", .normal⟩

/-- A third sample event. -/
def sampleEvent3 : Event := ⟨strL "v", [], "src", "e3", .normal⟩

/-- C9: on a bounded queue at capacity, `publish_nowait` raises `QueueFull`
before any mutation, leaving the bus state unchanged (the event is not
enqueued, the published counter is not incremented); otherwise — a bounded
queue with free space, or an unbounded queue (`maxsize <= 0`, which never
raises) — it enqueues the event and increments the published counter by
exactly one. -/
theorem publish_nowait_full_or_space (bus : EventBus) (event : Event) :
    (0 < bus.max_queue_size → bus.max_queue_size ≤ bus.queue.length →
      publish_nowait bus event = (bus, some "QueueFull"))
    ∧ (bus.max_queue_size = 0 ∨ bus.queue.length < bus.max_queue_size →
      publish_nowait bus event =
        ({ bus with queue := bus.queue ++ [event], published := bus.published + 1 }, none)) := by
  constructor
  · intro h1 h2
    simp [publish_nowait, put_nowait, h1, h2]
  · intro h
    have hno : ¬ (0 < bus.max_queue_size ∧ bus.max_queue_size ≤ bus.queue.length) := by
      rcases h with h | h <;> omega
    simp [publish_nowait, put_nowait, hno]

/-- Witness for C9: a bounded bus of capacity 1 holding one event rejects the
publish unchanged; the fresh default bus (capacity 10000) accepts it; an
unbounded bus (`maxsize = 0`) accepts it as well. -/
theorem publish_nowait_full_or_space_witness :
    publish_nowait { emptyBus with max_queue_size := 1, queue := [sampleEvent2] } sampleEvent
        = ({ emptyBus with max_queue_size := 1, queue := [sampleEvent2] }, some "QueueFull")
    ∧ publish_nowait emptyBus sampleEvent
        = ({ emptyBus with queue := [sampleEvent], published := 1 }, none)
    ∧ publish_nowait { emptyBus with max_queue_size := 0 } sampleEvent
        = ({ emptyBus with max_queue_size := 0, queue := [sampleEvent], published := 1 },
           none) :=
  ⟨(publish_nowait_full_or_space
        { emptyBus with max_queue_size := 1, queue := [sampleEvent2] } sampleEvent).1
      (by decide) (by decide),
   (publish_nowait_full_or_space emptyBus sampleEvent).2 (Or.inr (by decide)),
   (publish_nowait_full_or_space { emptyBus with max_queue_size := 0 } sampleEvent).2
      (Or.inl rfl)⟩

/-- C10: for limit ≥ 1, `recent_events` returns the last `min limit n` events
of the history, in order with the most recent last (a suffix); for limit = 0
it returns the entire history (Python `[-0:]` is the whole list). -/
theorem recent_events_spec (bus : EventBus) (limit : Nat) :
    (1 ≤ limit →
      recent_events bus limit
          = bus.event_history.drop (bus.event_history.length - limit)
      ∧ (recent_events bus limit).length = min limit bus.event_history.length
      ∧ recent_events bus limit <:+ bus.event_history)
    ∧ (limit = 0 → recent_events bus limit = bus.event_history) := by
  constructor
  · intro h
    have hneg : ¬ (0 ≤ -(limit : Int)) := by omega
    have hdrop : recent_events bus limit
        = bus.event_history.drop (bus.event_history.length - limit) := by
      simp only [recent_events, pySliceFrom, if_neg hneg, Int.neg_neg, Int.toNat_natCast]
    refine ⟨hdrop, ?_, ?_⟩
    · rw [hdrop, List.length_drop]
      omega
    · rw [hdrop]
      exact List.drop_suffix _ _
  · intro h
    subst h
    simp [recent_events, pySliceFrom]

/-- Witness for C10: on a three-event history, limit 2 yields the last two
events and limit 0 yields all three. -/
theorem recent_events_spec_witness :
    recent_events { emptyBus with event_history := [sampleEvent, sampleEvent2, sampleEvent3] } 2
        = [sampleEvent2, sampleEvent3]
    ∧ recent_events { emptyBus with event_history := [sampleEvent, sampleEvent2, sampleEvent3] } 0
        = [sampleEvent, sampleEvent2, sampleEvent3] :=
  ⟨((recent_events_spec
        { emptyBus with event_history := [sampleEvent, sampleEvent2, sampleEvent3] } 2).1
      (by decide)).1,
   (recent_events_spec
        { emptyBus with event_history := [sampleEvent, sampleEvent2, sampleEvent3] } 0).2 rfl⟩

/-! ### Topic pattern matching (claim C1) -/

theorem pyStartsWith_append_cons (v : PyStr) (c : Char) (rest : PyStr) :
    pyStartsWith (v ++ c :: rest) (v ++ [c]) = true := by
  have h : (v ++ [c]) ++ rest = v ++ c :: rest := by simp
  simp only [pyStartsWith, decide_eq_true_eq]
  exact ⟨rest, h⟩

theorem pyEndsWith_append (a suf : PyStr) : pyEndsWith (a ++ suf) suf = true := by
  simp [pyEndsWith, List.suffix_append]

/-- A nonempty member of the enumerated wildcard candidates of `U` is
`v ++ ".*"` for a `v` with `v ++ "."` a leading piece of `U`. -/
theorem mem_wildcardCandidates_elim (U w : PyStr)
    (hw : w ∈ wildcardCandidates U) (hne : w ≠ []) :
    ∃ v, w = v ++ strL ".*" ∧ pyStartsWith U (v ++ ['.']) = true := by
  simp only [wildcardCandidates] at hw
  obtain ⟨i, hi, hval⟩ := List.mem_map.mp hw
  rw [List.mem_range] at hi
  by_cases hlt : i < (pySplit '.' U).length - 1
  · rw [if_pos hlt] at hval
    set v := pyJoin '.' ((pySplit '.' U).take (i + 1)) with hv
    set w2 := pyJoin '.' ((pySplit '.' U).drop (i + 1)) with hw2
    refine ⟨v, hval.symm, ?_⟩
    have hsplit : pySplit '.' U ≠ [] := pySplit_ne_nil '.' U
    have hlen : 1 ≤ (pySplit '.' U).length := List.length_pos.mpr hsplit
    have h1 : (pySplit '.' U).take (i + 1) ≠ [] := by
      intro hc
      rcases List.take_eq_nil_iff.mp hc with hc | hc
      · omega
      · exact hsplit hc
    have h2 : (pySplit '.' U).drop (i + 1) ≠ [] := by
      intro hc
      have := List.drop_eq_nil_iff.mp hc
      omega
    have hU : U = v ++ '.' :: w2 := by
      calc U = pyJoin '.' (pySplit '.' U) := (pyJoin_pySplit '.' U).symm
        _ = pyJoin '.' ((pySplit '.' U).take (i + 1) ++ (pySplit '.' U).drop (i + 1)) := by
            rw [List.take_append_drop]
        _ = v ++ '.' :: w2 := pyJoin_append '.' _ _ h1 h2
    rw [hU]
    exact pyStartsWith_append_cons v '.' w2
  · rw [if_neg hlt] at hval
    exact absurd hval.symm hne

/-- On a topic of the form `T.x`, the wildcard `T.*` is among the enumerated
candidates of the dispatch loop. -/
theorem wildcard_mem_candidates (T x : PyStr) :
    T ++ strL ".*" ∈ wildcardCandidates (T ++ '.' :: x) := by
  simp only [wildcardCandidates, pySplit_append]
  have hpa : pySplit '.' T ≠ [] := pySplit_ne_nil '.' T
  have hpb : pySplit '.' x ≠ [] := pySplit_ne_nil '.' x
  have hpa1 : 1 ≤ (pySplit '.' T).length := List.length_pos.mpr hpa
  have hpb1 : 1 ≤ (pySplit '.' x).length := List.length_pos.mpr hpb
  refine List.mem_map.mpr ⟨(pySplit '.' T).length - 1, ?_, ?_⟩
  · rw [List.mem_range, List.length_append]
    omega
  · have hidx : (pySplit '.' T).length - 1 + 1 = (pySplit '.' T).length := by omega
    have hcond : (pySplit '.' T).length - 1
        < (pySplit '.' T ++ pySplit '.' x).length - 1 := by
      rw [List.length_append]
      omega
    rw [if_pos hcond, hidx, List.take_left, pyJoin_pySplit]

/-- Flat-mapped wildcard lookups over a singleton subscription dict whose
pattern cannot match produce nothing. -/
theorem wildcardSubs_nil (p U : PyStr) (l : List Subscription)
    (hno : ∀ w ∈ wildcardCandidates U, w ≠ [] → p ≠ w) :
    ((wildcardCandidates U).flatMap
      (fun w => if w ≠ [] then (dictGet [(p, l)] w).getD [] else [])) = [] := by
  rw [List.flatMap_eq_nil_iff]
  intro w hw
  by_cases hne : w = []
  · simp [hne]
  · rw [if_pos hne]
    have hpw : ¬ (p = w) := hno w hw hne
    simp [dictGet, hpw]

/-- C1 helper: a `"T.*"` subscription is collected for any topic `T.x`. -/
theorem collect_singleton_wildcard_mem (T x : PyStr) (sub : Subscription) :
    sub ∈ collectHandlers [(T ++ strL ".*", [sub])] [] (T ++ '.' :: x) := by
  simp only [collectHandlers]
  refine List.mem_append.mpr (Or.inl (List.mem_append.mpr (Or.inl
    (List.mem_append.mpr (Or.inr ?_)))))
  refine List.mem_flatMap.mpr ⟨T ++ strL ".*", wildcard_mem_candidates T x, ?_⟩
  have hne : T ++ strL ".*" ≠ [] := by simp [strL]
  rw [if_pos hne]
  simp [dictGet]

/-- C1 helper: a `"T.*"` subscription is not collected for a topic that does
not extend `"T."`. -/
theorem collect_singleton_wildcard_sibling (T U : PyStr) (sub : Subscription)
    (hU : pyStartsWith U (T ++ ['.']) = false) :
    collectHandlers [(T ++ strL ".*", [sub])] [] U = [] := by
  have hexact : T ++ strL ".*" ≠ U := by
    intro hc
    have hstart : pyStartsWith U (T ++ ['.']) = true := by
      rw [← hc]
      exact pyStartsWith_append_cons T '.' ['*']
    rw [hstart] at hU
    exact absurd hU (by decide)
  have h1 : dictGet [(T ++ strL ".*", [sub])] U = none := by
    simp [dictGet, hexact]
  have h2 : ((wildcardCandidates U).flatMap
      (fun w => if w ≠ [] then (dictGet [(T ++ strL ".*", [sub])] w).getD [] else [])) = [] := by
    apply wildcardSubs_nil
    intro w hw hne hc
    obtain ⟨v, hv, hstart⟩ := mem_wildcardCandidates_elim U w hw hne
    rw [hv] at hc
    have hTv : T = v := List.append_cancel_right hc
    rw [← hTv] at hstart
    rw [hstart] at hU
    exact absurd hU (by decide)
  have h3 : pyStartsWith U ((T ++ strL ".*").take ((T ++ strL ".*").length - 2) ++ ['.'])
      = false := by
    have hlen : (T ++ strL ".*").length - 2 = T.length := by
      simp [strL]
    rw [hlen, List.take_left]
    exact hU
  have h4 : ([(T ++ strL ".*", [sub])].flatMap (fun pr =>
      if pyEndsWith pr.1 (strL ".*") = true
          ∧ pyStartsWith U (pr.1.take (pr.1.length - 2) ++ ['.']) = true
          ∧ pr.1 ∉ fullWildcardList U
        then pr.2 else [])) = [] := by
    simp only [List.flatMap_cons, List.flatMap_nil, List.append_nil]
    rw [if_neg]
    rintro ⟨-, hB, -⟩
    rw [h3] at hB
    exact absurd hB (by decide)
  simp only [collectHandlers]
  rw [h1, h2, h4]
  simp

/-- C1 helper: an exact (non-wildcard, non-global) pattern subscription is
collected for its own topic. -/
theorem collect_singleton_exact_self (p : PyStr) (sub : Subscription) :
    sub ∈ collectHandlers [(p, [sub])] [] p := by
  simp only [collectHandlers]
  refine List.mem_append.mpr (Or.inl (List.mem_append.mpr (Or.inl
    (List.mem_append.mpr (Or.inl ?_)))))
  simp [dictGet]

/-- C1 helper: an exact (non-wildcard) pattern subscription is collected for
no other topic. -/
theorem collect_singleton_exact_other (p t : PyStr) (sub : Subscription)
    (hp1 : pyEndsWith p (strL ".*") = false) (hpt : t ≠ p) :
    collectHandlers [(p, [sub])] [] t = [] := by
  have h1 : dictGet [(p, [sub])] t = none := by
    have : ¬ (p = t) := fun hc => hpt hc.symm
    simp [dictGet, this]
  have h2 : ((wildcardCandidates t).flatMap
      (fun w => if w ≠ [] then (dictGet [(p, [sub])] w).getD [] else [])) = [] := by
    apply wildcardSubs_nil
    intro w hw hne hc
    obtain ⟨v, hv, _⟩ := mem_wildcardCandidates_elim t w hw hne
    rw [hc, hv] at hp1
    rw [pyEndsWith_append] at hp1
    exact absurd hp1 (by decide)
  have h4 : ([(p, [sub])].flatMap (fun pr =>
      if pyEndsWith pr.1 (strL ".*") = true
          ∧ pyStartsWith t (pr.1.take (pr.1.length - 2) ++ ['.']) = true
          ∧ pr.1 ∉ fullWildcardList t
        then pr.2 else [])) = [] := by
    simp only [List.flatMap_cons, List.flatMap_nil, List.append_nil]
    rw [if_neg]
    rintro ⟨hA, -, -⟩
    rw [hp1] at hA
    exact absurd hA (by decide)
  simp only [collectHandlers]
  rw [h1, h2, h4]
  simp

/-- C1 helper: a global subscription is collected for every topic. -/
theorem collect_globals_mem (g : List Subscription) (sub : Subscription)
    (hsub : sub ∈ g) (t : PyStr) :
    sub ∈ collectHandlers [] g t := by
  simp only [collectHandlers]
  have h2 : ((wildcardCandidates t).flatMap
      (fun w => if w ≠ [] then (dictGet ([] : List (PyStr × List Subscription)) w).getD []
                else [])) = [] := by
    rw [List.flatMap_eq_nil_iff]
    intro w _
    by_cases hne : w = [] <;> simp [hne, dictGet]
  simp [dictGet, h2, hsub]

/-- Subscribing a non-global pattern on a fresh bus records exactly one
subscription under that pattern. -/
theorem subscribe_empty_nonglobal (p : PyStr) (h : Event → Except String Unit)
    (sid : String) (pr : EventPriority) (hp : ¬ p = strL "*") (hs : ¬ sid = "") :
    (subscribe emptyBus p h sid pr).1
      = { emptyBus with subscriptions := [(p, [⟨h, sid, p, pr⟩])] } := by
  simp [subscribe, hp, hs, dictGet, dictSet, emptyBus]

/-- Subscribing the global pattern on a fresh bus records exactly one global
subscription. -/
theorem subscribe_empty_global (h : Event → Except String Unit)
    (sid : String) (pr : EventPriority) (hs : ¬ sid = "") :
    (subscribe emptyBus (strL "*") h sid pr).1
      = { emptyBus with global_subscriptions := [⟨h, sid, strL "*", pr⟩] } := by
  simp [subscribe, hs, emptyBus]

/-- C1: for every topic `T`, a subscription on `"T.*"` is delivered events
published to `T.x` and to `T.y.z` (any depth below the prefix), but not to a
sibling topic `U` that does not extend `"T."`; an exact-pattern subscription
matches only its exact topic; a `"*"` subscription matches every topic.
Delivery is membership in the handler set collected by `_dispatch_event`. -/
theorem wildcard_exact_global_matching
    (T x y z U p t : PyStr) (h : Event → Except String Unit)
    (hU : pyStartsWith U (T ++ ['.']) = false)
    (hp1 : pyEndsWith p (strL ".*") = false) (hp2 : ¬ p = strL "*") (hpt : t ≠ p) :
    ((⟨h, "w", T ++ strL ".*", .normal⟩ : Subscription)
        ∈ collectHandlers (subscribe emptyBus (T ++ strL ".*") h "w" .normal).1.subscriptions
            (subscribe emptyBus (T ++ strL ".*") h "w" .normal).1.global_subscriptions
            (T ++ '.' :: x))
    ∧ ((⟨h, "w", T ++ strL ".*", .normal⟩ : Subscription)
        ∈ collectHandlers (subscribe emptyBus (T ++ strL ".*") h "w" .normal).1.subscriptions
            (subscribe emptyBus (T ++ strL ".*") h "w" .normal).1.global_subscriptions
            (T ++ '.' :: (y ++ '.' :: z)))
    ∧ (collectHandlers (subscribe emptyBus (T ++ strL ".*") h "w" .normal).1.subscriptions
            (subscribe emptyBus (T ++ strL ".*") h "w" .normal).1.global_subscriptions U = [])
    ∧ ((⟨h, "e", p, .normal⟩ : Subscription)
        ∈ collectHandlers (subscribe emptyBus p h "e" .normal).1.subscriptions
            (subscribe emptyBus p h "e" .normal).1.global_subscriptions p)
    ∧ (collectHandlers (subscribe emptyBus p h "e" .normal).1.subscriptions
            (subscribe emptyBus p h "e" .normal).1.global_subscriptions t = [])
    ∧ ((⟨h, "g", strL "*", .normal⟩ : Subscription)
        ∈ collectHandlers (subscribe emptyBus (strL "*") h "g" .normal).1.subscriptions
            (subscribe emptyBus (strL "*") h "g" .normal).1.global_subscriptions t) := by
  have hwpat : ¬ (T ++ strL ".*" = strL "*") := by
    intro hc
    have := congrArg List.length hc
    simp [strL] at this
  have hbusw := subscribe_empty_nonglobal (T ++ strL ".*") h "w" .normal hwpat (by decide)
  have hbuse := subscribe_empty_nonglobal p h "e" .normal hp2 (by decide)
  have hbusg := subscribe_empty_global h "g" .normal (by decide)
  refine ⟨?_, ?_, ?_, ?_, ?_, ?_⟩
  · rw [hbusw]
    exact collect_singleton_wildcard_mem T x _
  · rw [hbusw]
    exact collect_singleton_wildcard_mem T (y ++ '.' :: z) _
  · rw [hbusw]
    exact collect_singleton_wildcard_sibling T U _ hU
  · rw [hbuse]
    exact collect_singleton_exact_self p _
  · rw [hbuse]
    exact collect_singleton_exact_other p t _ hp1 hpt
  · rw [hbusg]
    exact collect_globals_mem _ _ (List.mem_singleton.mpr rfl) t

/-- A trivially succeeding handler, used in witness instantiations. -/
def okHandler : Event → Except String Unit := fun _ => Except.ok ()

/-- Witness for C1 instantiated at `T = "task"`, topics `"task.created"` and
`"task.sub.deep"`, sibling `"other"`, exact pattern `"a.b"` against topic
`"a"`. -/
theorem wildcard_exact_global_matching_witness :
    ((⟨okHandler, "w", strL "task" ++ strL ".*", .normal⟩ : Subscription)
        ∈ collectHandlers
            (subscribe emptyBus (strL "task" ++ strL ".*") okHandler "w" .normal).1.subscriptions
            (subscribe emptyBus (strL "task" ++ strL ".*") okHandler "w" .normal).1.global_subscriptions
            (strL "task" ++ '.' :: strL "created"))
    ∧ ((⟨okHandler, "w", strL "task" ++ strL ".*", .normal⟩ : Subscription)
        ∈ collectHandlers
            (subscribe emptyBus (strL "task" ++ strL ".*") okHandler "w" .normal).1.subscriptions
            (subscribe emptyBus (strL "task" ++ strL ".*") okHandler "w" .normal).1.global_subscriptions
            (strL "task" ++ '.' :: (strL "sub" ++ '.' :: strL "deep")))
    ∧ (collectHandlers
            (subscribe emptyBus (strL "task" ++ strL ".*") okHandler "w" .normal).1.subscriptions
            (subscribe emptyBus (strL "task" ++ strL ".*") okHandler "w" .normal).1.global_subscriptions
            (strL "other") = [])
    ∧ ((⟨okHandler, "e", strL "a.b", .normal⟩ : Subscription)
        ∈ collectHandlers (subscribe emptyBus (strL "a.b") okHandler "e" .normal).1.subscriptions
            (subscribe emptyBus (strL "a.b") okHandler "e" .normal).1.global_subscriptions
            (strL "a.b"))
    ∧ (collectHandlers (subscribe emptyBus (strL "a.b") okHandler "e" .normal).1.subscriptions
            (subscribe emptyBus (strL "a.b") okHandler "e" .normal).1.global_subscriptions
            (strL "a") = [])
    ∧ ((⟨okHandler, "g", strL "*", .normal⟩ : Subscription)
        ∈ collectHandlers (subscribe emptyBus (strL "*") okHandler "g" .normal).1.subscriptions
            (subscribe emptyBus (strL "*") okHandler "g" .normal).1.global_subscriptions
            (strL "a")) :=
  wildcard_exact_global_matching (strL "task") (strL "created") (strL "sub") (strL "deep")
    (strL "other") (strL "a.b") (strL "a") okHandler (by decide) (by decide) (by decide)
    (by decide)

/-! ### Dispatch execution (claims C2 and C7) -/

theorem insertDesc_perm (x : Subscription) (l : List Subscription) :
    List.Perm (insertDesc x l) (x :: l) := by
  induction l with
  | nil => exact List.Perm.refl _
  | cons y ys ih =>
    simp only [insertDesc]
    split
    · exact List.Perm.trans (List.Perm.cons y ih) (List.Perm.swap x y ys)
    · exact List.Perm.refl _

theorem sortDesc_perm (l : List Subscription) : List.Perm (sortDesc l) l := by
  induction l with
  | nil => exact List.Perm.refl _
  | cons x xs ih =>
    exact List.Perm.trans (insertDesc_perm x (sortDesc xs)) (List.Perm.cons x ih)

theorem safeCall_invoked (bus : EventBus) (h : Event → Except String Unit)
    (e : Event) (sid : String) :
    (safeCall bus h e sid).invoked = bus.invoked ++ [(sid, e.event_id)] := by
  simp only [safeCall]
  cases h e <;> rfl

theorem safeCall_errors (bus : EventBus) (h : Event → Except String Unit)
    (e : Event) (sid : String) :
    (safeCall bus h e sid).errors = bus.errors + (if raisesF h e then 1 else 0) := by
  obtain ⟨u, hu⟩ | ⟨m, hm⟩ : (∃ u, h e = Except.ok u) ∨ (∃ m, h e = Except.error m) := by
    cases hse : h e with
    | ok u => exact Or.inl ⟨u, rfl⟩
    | error m => exact Or.inr ⟨m, rfl⟩
  · simp [safeCall, raisesF, hu]
  · simp [safeCall, raisesF, hm]

theorem safeCall_fields (bus : EventBus) (h : Event → Except String Unit)
    (e : Event) (sid : String) :
    (safeCall bus h e sid).subscriptions = bus.subscriptions
  ∧ (safeCall bus h e sid).global_subscriptions = bus.global_subscriptions
  ∧ (safeCall bus h e sid).queue = bus.queue
  ∧ (safeCall bus h e sid).dispatched = bus.dispatched
  ∧ (safeCall bus h e sid).event_history = bus.event_history := by
  simp only [safeCall]
  cases h e <;> exact ⟨rfl, rfl, rfl, rfl, rfl⟩

theorem foldl_safeCall_spec (e : Event) (l : List Subscription) :
    ∀ bus : EventBus,
      (l.foldl (fun b s => safeCall b s.handler e s.subscriber_id) bus).invoked
          = bus.invoked ++ l.map (fun s => (s.subscriber_id, e.event_id))
    ∧ (l.foldl (fun b s => safeCall b s.handler e s.subscriber_id) bus).errors
          = bus.errors + l.countP (fun s => raises s e)
    ∧ (l.foldl (fun b s => safeCall b s.handler e s.subscriber_id) bus).subscriptions
          = bus.subscriptions
    ∧ (l.foldl (fun b s => safeCall b s.handler e s.subscriber_id) bus).global_subscriptions
          = bus.global_subscriptions
    ∧ (l.foldl (fun b s => safeCall b s.handler e s.subscriber_id) bus).queue = bus.queue
    ∧ (l.foldl (fun b s => safeCall b s.handler e s.subscriber_id) bus).dispatched
          = bus.dispatched
    ∧ (l.foldl (fun b s => safeCall b s.handler e s.subscriber_id) bus).event_history
          = bus.event_history := by
  induction l with
  | nil => intro bus; simp
  | cons s ss ih =>
    intro bus
    obtain ⟨hi, he, hs1, hs2, hs3, hs4, hs5⟩ := ih (safeCall bus s.handler e s.subscriber_id)
    obtain ⟨hf1, hf2, hf3, hf4, hf5⟩ := safeCall_fields bus s.handler e s.subscriber_id
    refine ⟨?_, ?_, ?_, ?_, ?_, ?_, ?_⟩
    · rw [List.foldl_cons, hi, safeCall_invoked, List.map_cons, List.append_assoc]
      rfl
    · rw [List.foldl_cons, he, safeCall_errors, List.countP_cons]
      simp only [raises]
      omega
    · rw [List.foldl_cons, hs1, hf1]
    · rw [List.foldl_cons, hs2, hf2]
    · rw [List.foldl_cons, hs3, hf3]
    · rw [List.foldl_cons, hs4, hf4]
    · rw [List.foldl_cons, hs5, hf5]

/-- Full characterization of one dispatch pass over the observable fields. -/
theorem dispatchEvent_spec (bus : EventBus) (e : Event) :
    (dispatchEvent bus e).invoked
        = bus.invoked
          ++ (sortDesc (collectHandlers bus.subscriptions bus.global_subscriptions e.topic)).map
              (fun s => (s.subscriber_id, e.event_id))
    ∧ (dispatchEvent bus e).errors
        = bus.errors
          + (collectHandlers bus.subscriptions bus.global_subscriptions e.topic).countP
              (fun s => raises s e)
    ∧ (dispatchEvent bus e).subscriptions = bus.subscriptions
    ∧ (dispatchEvent bus e).global_subscriptions = bus.global_subscriptions
    ∧ (dispatchEvent bus e).queue = bus.queue
    ∧ (dispatchEvent bus e).dispatched = bus.dispatched + 1 := by
  obtain ⟨hi, he, hs1, hs2, hs3, hs4, _⟩ :=
    foldl_safeCall_spec e
      (sortDesc (collectHandlers bus.subscriptions bus.global_subscriptions e.topic))
      { bus with event_history := recordHistoryList bus.event_history bus.max_history e }
  refine ⟨?_, ?_, ?_, ?_, ?_, ?_⟩
  · exact hi
  · show ((sortDesc (collectHandlers bus.subscriptions bus.global_subscriptions e.topic)).foldl
        (fun b s => safeCall b s.handler e s.subscriber_id)
        { bus with event_history := recordHistoryList bus.event_history bus.max_history e }).errors
      = bus.errors
        + (collectHandlers bus.subscriptions bus.global_subscriptions e.topic).countP
            (fun s => raises s e)
    rw [he, (sortDesc_perm _).countP_eq]
  · exact hs1
  · exact hs2
  · exact hs3
  · show ((sortDesc (collectHandlers bus.subscriptions bus.global_subscriptions e.topic)).foldl
        (fun b s => safeCall b s.handler e s.subscriber_id)
        { bus with event_history := recordHistoryList bus.event_history bus.max_history e }).dispatched
        + 1
      = bus.dispatched + 1
    rw [hs4]

/-- C2: when some matched handler raises on an event, every matched handler
is still invoked with that event, the failures are counted in the error
statistic, and the dispatch pass completes normally (the dispatched counter
is incremented; no exception reaches the publisher). -/
theorem handler_error_isolation (bus : EventBus) (e : Event)
    (hraise : ∃ s ∈ collectHandlers bus.subscriptions bus.global_subscriptions e.topic,
        raises s e = true) :
    (∀ s ∈ collectHandlers bus.subscriptions bus.global_subscriptions e.topic,
        (s.subscriber_id, e.event_id) ∈ (dispatchEvent bus e).invoked)
    ∧ (dispatchEvent bus e).errors
        = bus.errors
          + (collectHandlers bus.subscriptions bus.global_subscriptions e.topic).countP
              (fun s => raises s e)
    ∧ 1 ≤ (collectHandlers bus.subscriptions bus.global_subscriptions e.topic).countP
        (fun s => raises s e)
    ∧ (dispatchEvent bus e).dispatched = bus.dispatched + 1 := by
  obtain ⟨hi, he, _, _, _, hd⟩ := dispatchEvent_spec bus e
  refine ⟨?_, he, ?_, hd⟩
  · intro s hs
    rw [hi]
    refine List.mem_append.mpr (Or.inr ?_)
    exact List.mem_map.mpr ⟨s, ((sortDesc_perm _).mem_iff).mpr hs, rfl⟩
  · obtain ⟨s, hs, hr⟩ := hraise
    exact List.countP_pos_iff.mpr ⟨s, hs, hr⟩

/-- A handler that always raises, for witness instantiations. -/
def badHandler : Event → Except String Unit := fun _ => Except.error "boom"

/-- A faulting subscription on topic `"t"`. -/
def badSub : Subscription := ⟨badHandler, "bad", strL "t", .normal⟩

/-- A succeeding subscription on topic `"t"`. -/
def goodSub : Subscription := ⟨okHandler, "good", strL "t", .normal⟩

/-- A bus with a faulting and a succeeding subscriber on topic `"t"`. -/
def c2Bus : EventBus := { emptyBus with subscriptions := [(strL "t", [badSub, goodSub])] }

/-- Witness for C2: with a faulting and a succeeding co-subscriber on `"t"`,
dispatching one event invokes both and counts exactly one error. -/
theorem handler_error_isolation_witness :
    ("good", "e1") ∈ (dispatchEvent c2Bus sampleEvent).invoked
    ∧ ("bad", "e1") ∈ (dispatchEvent c2Bus sampleEvent).invoked
    ∧ (dispatchEvent c2Bus sampleEvent).errors = 1
    ∧ (dispatchEvent c2Bus sampleEvent).dispatched = 1 := by
  have hmem : badSub ∈ collectHandlers c2Bus.subscriptions c2Bus.global_subscriptions
      sampleEvent.topic := List.Mem.head _
  have h := handler_error_isolation c2Bus sampleEvent ⟨badSub, hmem, rfl⟩
  refine ⟨?_, ?_, ?_, h.2.2.2⟩
  · exact h.1 goodSub (List.Mem.tail _ (List.Mem.head _))
  · exact h.1 badSub hmem
  · rw [h.2.1]
    rfl

/-- Per-field characterization of draining a queue through repeated dispatch
passes. -/
theorem foldl_dispatch_spec (q : List Event) :
    ∀ bus : EventBus,
      (q.foldl dispatchEvent bus).subscriptions = bus.subscriptions
    ∧ (q.foldl dispatchEvent bus).global_subscriptions = bus.global_subscriptions
    ∧ (q.foldl dispatchEvent bus).queue = bus.queue
    ∧ (q.foldl dispatchEvent bus).dispatched = bus.dispatched + q.length
    ∧ (q.foldl dispatchEvent bus).invoked
        = bus.invoked ++ q.flatMap (fun e =>
            (sortDesc (collectHandlers bus.subscriptions bus.global_subscriptions e.topic)).map
              (fun s => (s.subscriber_id, e.event_id))) := by
  induction q with
  | nil => intro bus; simp
  | cons e q ih =>
    intro bus
    obtain ⟨hi, he, hs1, hs2, hq, hd⟩ := dispatchEvent_spec bus e
    obtain ⟨ha, hb, hc, hdd, hee⟩ := ih (dispatchEvent bus e)
    refine ⟨?_, ?_, ?_, ?_, ?_⟩
    · rw [List.foldl_cons, ha, hs1]
    · rw [List.foldl_cons, hb, hs2]
    · rw [List.foldl_cons, hc, hq]
    · rw [List.foldl_cons, hdd, hd, List.length_cons]
      omega
    · rw [List.foldl_cons, hee, hi, hs1, hs2, List.flatMap_cons, List.append_assoc]

/-- C7: calling `stop()` on a running bus dispatches every queued event to its
matching handlers before halting: the queue ends empty, the dispatched counter
grows by the queue length, and every matched handler of every queued event is
invoked with it. -/
theorem stop_drains_queue (bus : EventBus) (hrun : bus.running = true) :
    (stop bus).queue = []
    ∧ (stop bus).dispatched = bus.dispatched + bus.queue.length
    ∧ ∀ e ∈ bus.queue,
        ∀ s ∈ collectHandlers bus.subscriptions bus.global_subscriptions e.topic,
          (s.subscriber_id, e.event_id) ∈ (stop bus).invoked := by
  have hne : ¬ (bus.running = false) := by rw [hrun]; simp
  obtain ⟨_, _, hq, hd, hinv⟩ :=
    foldl_dispatch_spec bus.queue { bus with running := false, queue := [] }
  have hstop : stop bus
      = bus.queue.foldl dispatchEvent { bus with running := false, queue := [] } := by
    simp only [stop, if_neg hne]
  refine ⟨?_, ?_, ?_⟩
  · rw [hstop, hq]
  · rw [hstop, hd]
  · intro e he s hs
    rw [hstop, hinv]
    refine List.mem_append.mpr (Or.inr ?_)
    refine List.mem_flatMap.mpr ⟨e, he, ?_⟩
    exact List.mem_map.mpr ⟨s, ((sortDesc_perm _).mem_iff).mpr hs, rfl⟩

/-- A subscription on topic `"u"` for the C7 witness. -/
def c7Sub : Subscription := ⟨okHandler, "s7", strL "u", .normal⟩

/-- A running bus with one queued event and a matching subscriber. -/
def c7Bus : EventBus :=
  { emptyBus with
    running := true
    queue := [sampleEvent2]
    subscriptions := [(strL "u", [c7Sub])] }

/-- Witness for C7: stopping the running bus with one queued event on `"u"`
delivers it to the `"u"` subscriber and empties the queue. -/
theorem stop_drains_queue_witness :
    (stop c7Bus).queue = []
    ∧ (stop c7Bus).dispatched = 1
    ∧ ("s7", "e2") ∈ (stop c7Bus).invoked := by
  have h := stop_drains_queue c7Bus rfl
  refine ⟨h.1, h.2.1, ?_⟩
  exact h.2.2 sampleEvent2 (List.Mem.head _) c7Sub (List.Mem.head _)

/-! ## Config loader — `src/swarmx/utils/config.py` (claim C8)

`os.environ` is modelled as a partial map; `os.environ.get(v, "")` is
`(env v).getD []`. `resolve_env_vars` is modelled on string inputs (the
`isinstance(value, str)` guard restricts the interesting branch to strings);
the returned `Bool` records whether the `logger.warning` fired (the code warns
whenever the resolved value is falsy, i.e. the empty string). -/

/-- `resolve_env_vars(value)`: a value that starts with `"${"` and ends with
`"}"` is replaced by the environment variable named by the text in between
(empty string when unset, with a warning); every other value passes through
unchanged. Returns `(result, warned)`. -/
def resolve_env_vars (env : String → Option PyStr) (value : PyStr) : PyStr × Bool :=
  if pyStartsWith value (strL "$\x7b") = true ∧ pyEndsWith value (strL "\x7d") = true then
    let env_var := (value.drop 2).dropLast
    let resolved := (env (String.mk env_var)).getD []
    (resolved, decide (resolved = []))
  else (value, false)

/-- The environment used in the C8 counterexample: `VAR` is set to `"v"`. -/
def c8Env : String → Option PyStr :=
  fun k => if k = "VAR" then some (strL "v") else none

/-- Counterexample for C8: the value `"x${VAR}"` contains the placeholder
`"${VAR}"` and `VAR` is set (to `"v"`), yet `resolve_env_vars` returns the
value unchanged (and unresolved): only values that are entirely a single
placeholder are resolved, refuting resolution of every value containing a
placeholder. -/
theorem resolve_env_vars_embedded_unresolved :
    resolve_env_vars c8Env (strL "x${VAR}") = (strL "x${VAR}", false)
    ∧ (strL "${VAR}") <:+: (strL "x${VAR}")
    ∧ c8Env "VAR" = some (strL "v")
    ∧ (resolve_env_vars c8Env (strL "x${VAR}")).1 ≠ strL "xv" := by
  refine ⟨?_, ?_, rfl, ?_⟩ <;> decide

/-- C8 (amended): a configuration value that is entirely a placeholder —
starting with `"${"` and ending with `"}"` — resolves at load time to the
value of the variable named between them; when that variable is unset it
resolves to the empty string with a warning; any other value (including one
merely containing a placeholder inside) passes through unchanged; resolution
is a total function and never fails the load. -/
theorem resolve_env_vars_spec (env : String → Option PyStr) (value : PyStr)
    (name : String) :
    (pyStartsWith value (strL "$\x7b") = true → pyEndsWith value (strL "\x7d") = true →
      resolve_env_vars env value
        = ((env (String.mk ((value.drop 2).dropLast))).getD [],
           decide ((env (String.mk ((value.drop 2).dropLast))).getD [] = [])))
    ∧ (env name = none →
      resolve_env_vars env (strL "$\x7b" ++ name.data ++ strL "\x7d") = ([], true))
    ∧ (¬ (pyStartsWith value (strL "$\x7b") = true ∧ pyEndsWith value (strL "\x7d") = true) →
      resolve_env_vars env value = (value, false)) := by
  refine ⟨?_, ?_, ?_⟩
  · intro h1 h2
    rw [resolve_env_vars, if_pos ⟨h1, h2⟩]
  · intro hnone
    have h1 : pyStartsWith (strL "$\x7b" ++ name.data ++ strL "\x7d") (strL "$\x7b") = true := by
      simp only [pyStartsWith, decide_eq_true_eq]
      exact ⟨name.data ++ strL "\x7d", by simp⟩
    have h2 : pyEndsWith (strL "$\x7b" ++ name.data ++ strL "\x7d") (strL "\x7d") = true := by
      simp only [pyEndsWith, decide_eq_true_eq]
      exact ⟨strL "$\x7b" ++ name.data, by simp⟩
    have hmid : (((strL "$\x7b" ++ name.data ++ strL "\x7d").drop 2).dropLast) = name.data := by
      have : strL "$\x7b" ++ name.data ++ strL "\x7d" = strL "$\x7b" ++ (name.data ++ strL "\x7d") := by
        simp [List.append_assoc]
      rw [this, List.drop_append_of_le_length (by simp [strL])]
      simp [strL, List.dropLast_append_cons]
    rw [resolve_env_vars, if_pos ⟨h1, h2⟩, hmid]
    simp [hnone]
  · intro hno
    rw [resolve_env_vars, if_neg hno]

/-- Witness for C8: `"${HOME}"` resolves to the set value; `"${GONE}"`
resolves to the empty string with a warning; `"plain"` passes through. -/
theorem resolve_env_vars_spec_witness :
    resolve_env_vars (fun k => if k = "HOME" then some (strL "/root") else none)
        (strL "${HOME}") = (strL "/root", false)
    ∧ resolve_env_vars (fun _ => none) (strL "$\x7b" ++ "GONE".data ++ strL "\x7d") = ([], true)
    ∧ resolve_env_vars (fun _ => none) (strL "plain") = (strL "plain", false) := by
  refine ⟨?_, ?_, ?_⟩
  · have h := (resolve_env_vars_spec
        (fun k => if k = "HOME" then some (strL "/root") else none) (strL "${HOME}") "HOME").1
        (by decide) (by decide)
    rw [h]
    decide
  · exact (resolve_env_vars_spec (fun _ => none) (strL "${GONE}") "GONE").2.1 rfl
  · exact (resolve_env_vars_spec (fun _ => none) (strL "plain") "plain").2.2 (by decide)

/-! ## Task scheduler — `src/swarmx/core/scheduler.py` (claims C4 and C5)

The scheduler state carries the task dict, a logical clock `now : ℚ`
(`time.time()` reads it, `asyncio.sleep d` advances it by `d`), and a trace of
observable effects: status assignments, sleeps, and events published to the
bus. `await` inside one coroutine call chain is sequential composition, which
is exactly how `submit`/`submit_many`/`_check_dependents` execute
`_schedule_task` (it is awaited inline, never wrapped in a task). -/

/-- `TaskStatus` enum. -/
inductive TaskStatus where
  | pending
  | scheduled
  | running
  | completed
  | failed
  | cancelled
deriving DecidableEq, Repr

/-- The `Task` dataclass. Payload values are modelled as strings. -/
structure Task where
  task_id : String
  name : String
  description : String
  target_topic : PyStr
  payload : List (String × String)
  priority : EventPriority
  status : TaskStatus
  depends_on : List String
  created_at : ℚ
  started_at : Option ℚ
  completed_at : Option ℚ
  result : Option String
  error : Option String
  delay_seconds : ℚ
deriving DecidableEq

/-- Observable scheduler effects, in program order. -/
inductive SchedEff where
  | setStatus (task_id : String) (status : TaskStatus)
  | sleep (seconds : ℚ)
  | publish (topic : PyStr) (task_id : String) (payload : List (String × String))
deriving DecidableEq

/-- Scheduler state: the `_tasks` dict, the logical clock, the effect trace. -/
structure SchedState where
  tasks : List (String × Task)
  now : ℚ
  trace : List SchedEff

/-- Update the task stored under a key (Python mutates the task object held by
the dict in place). -/
def updTask (tasks : List (String × Task)) (tid : String) (f : Task → Task) :
    List (String × Task) :=
  tasks.map (fun p => if p.1 = tid then (p.1, f p.2) else p)

/-- A status assignment `task.status = st`, recorded in the trace. -/
def setTaskStatus (s : SchedState) (tid : String) (st : TaskStatus) : SchedState :=
  { s with tasks := updTask s.tasks tid (fun t => { t with status := st })
           trace := s.trace ++ [SchedEff.setStatus tid st] }

/-- `TaskScheduler._can_schedule`: every dependency id must resolve to a task
whose status is exactly COMPLETED. -/
def canSchedule (tasks : List (String × Task)) (t : Task) : Bool :=
  t.depends_on.all (fun dep =>
    match dictGet tasks dep with
    | some dt => decide (dt.status = TaskStatus.completed)
    | none => false)

/-- Python `{**a, **b}` for string dicts: `a`'s keys in order with values
overridden by `b`, then `b`'s remaining keys in order. -/
def pyMerge (a b : List (String × String)) : List (String × String) :=
  a.map (fun p => (p.1, (dictGet b p.1).getD p.2))
    ++ b.filter (fun p => (dictGet a p.1).isNone)

/-- The event payload built by `_schedule_task` (lines 167–179). -/
def taskEventPayload (t : Task) : List (String × String) :=
  pyMerge
    [("task_id", t.task_id), ("name", t.name), ("description", t.description),
     ("content", (dictGet t.payload "content").getD t.description)]
    t.payload

/-- `TaskScheduler._schedule_task`: bail out on CANCELLED; on a positive
delay mark SCHEDULED and sleep inline; then mark RUNNING, stamp `started_at`,
and publish the task event on its `target_topic`. -/
def scheduleTask (s : SchedState) (tid : String) : SchedState :=
  match dictGet s.tasks tid with
  | none => s
  | some t =>
    if t.status = TaskStatus.cancelled then s
    else
      let s1 :=
        if 0 < t.delay_seconds then
          let sa := setTaskStatus s tid TaskStatus.scheduled
          { sa with now := sa.now + t.delay_seconds
                    trace := sa.trace ++ [SchedEff.sleep t.delay_seconds] }
        else s
      let s2 := setTaskStatus s1 tid TaskStatus.running
      let s3 := { s2 with
        tasks := updTask s2.tasks tid (fun u => { u with started_at := some s2.now }) }
      { s3 with trace := s3.trace
          ++ [SchedEff.publish t.target_topic t.task_id (taskEventPayload t)] }

/-- `TaskScheduler.submit`: record the task, schedule it immediately when its
dependencies are satisfied. Returns the task id. -/
def submit (s : SchedState) (t : Task) : SchedState × String :=
  let s1 := { s with tasks := dictSet s.tasks t.task_id t }
  let s2 := if canSchedule s1.tasks t then scheduleTask s1 t.task_id else s1
  (s2, t.task_id)

/-- `TaskScheduler.submit_many`: submit sequentially, preserving order. -/
def submitMany (s : SchedState) (ts : List Task) : SchedState × List String :=
  ts.foldl (fun acc t =>
    let r := submit acc.1 t
    (r.1, acc.2 ++ [r.2])) (s, [])

/-- `TaskScheduler.cancel`: only PENDING or SCHEDULED tasks become CANCELLED;
anything else (unknown, running, terminal) is a `False` no-op. -/
def cancel (s : SchedState) (tid : String) : SchedState × Bool :=
  match dictGet s.tasks tid with
  | none => (s, false)
  | some t =>
    if t.status = TaskStatus.pending ∨ t.status = TaskStatus.scheduled then
      (setTaskStatus s tid TaskStatus.cancelled, true)
    else (s, false)

/-- One iteration of the `_check_dependents` loop body for the task under
key `k`. -/
def checkDependentsStep (cid : String) (acc : SchedState) (k : String) : SchedState :=
  match dictGet acc.tasks k with
  | none => acc
  | some t =>
    if t.status = TaskStatus.pending ∧ cid ∈ t.depends_on
        ∧ canSchedule acc.tasks t = true
      then scheduleTask acc k
      else acc

/-- `TaskScheduler._check_dependents`: walk the task dict; every PENDING task
that depends on the completed id and is now schedulable is scheduled
(`_schedule_task` is awaited inline, so the walk is sequential). -/
def checkDependents (s : SchedState) (cid : String) : SchedState :=
  (s.tasks.map Prod.fst).foldl (checkDependentsStep cid) s

/-- `TaskScheduler._on_task_completed`: an observed `task.completed` event
naming a known task id sets it COMPLETED unconditionally, stamps
`completed_at`, records the result, then cascades to dependents. -/
def onTaskCompleted (s : SchedState) (etid : String) (result : Option String) :
    SchedState :=
  match dictGet s.tasks etid with
  | none => s
  | some _ =>
    let s1 := setTaskStatus s etid TaskStatus.completed
    let s2 := { s1 with
      tasks := updTask s1.tasks etid
        (fun u => { u with completed_at := some s1.now, result := result }) }
    checkDependents s2 etid

/-- `TaskScheduler._on_task_failed`: an observed `task.failed` event naming a
known task id sets it FAILED unconditionally and records the error; no
cascade. -/
def onTaskFailed (s : SchedState) (etid : String) (err : Option String) :
    SchedState :=
  match dictGet s.tasks etid with
  | none => s
  | some _ =>
    let s1 := setTaskStatus s etid TaskStatus.failed
    { s1 with
      tasks := updTask s1.tasks etid
        (fun u => { u with completed_at := some s1.now,
                           error := some (err.getD "Unknown error") }) }

/-! ### Scheduler lemmas -/

/-- Whether an effect names the given task id. -/
def SchedEff.mentionsTask : SchedEff → String → Bool
  | .setStatus i _, tid => decide (i = tid)
  | .sleep _, _ => false
  | .publish _ i _, tid => decide (i = tid)

/-- Well-formedness: each dict entry stores a task whose `task_id` is its key
(guaranteed by `submit`, which stores `task` under `task.task_id`). -/
def WfTasks (tasks : List (String × Task)) : Prop :=
  ∀ p ∈ tasks, p.2.task_id = p.1

instance (tasks : List (String × Task)) : Decidable (WfTasks tasks) :=
  List.decidableBAll _ tasks

theorem dictGet_updTask (tasks : List (String × Task)) (utid k : String)
    (f : Task → Task) :
    dictGet (updTask tasks utid f) k
      = if k = utid then (dictGet tasks k).map f else dictGet tasks k := by
  induction tasks with
  | nil =>
    simp only [updTask, List.map_nil, dictGet]
    by_cases h : k = utid <;> simp [h]
  | cons p ps ih =>
    simp only [updTask, List.map_cons] at *
    by_cases hpt : p.1 = utid
    · simp only [if_pos hpt]
      by_cases hpk : p.1 = k
      · have hkt : k = utid := hpk ▸ hpt
        simp [dictGet, hpk, hkt]
      · simp [dictGet, hpk, ih]
    · simp only [if_neg hpt]
      by_cases hpk : p.1 = k
      · have hkt : ¬ (k = utid) := by rw [← hpk]; exact hpt
        simp [dictGet, hpk, hkt]
      · simp [dictGet, hpk, ih]

theorem dictGet_mem {κ α : Type} [DecidableEq κ] (l : List (κ × α)) (k : κ) (v : α)
    (h : dictGet l k = some v) : (k, v) ∈ l := by
  induction l with
  | nil => simp [dictGet] at h
  | cons p ps ih =>
    simp only [dictGet] at h
    by_cases hp : p.1 = k
    · rw [if_pos hp] at h
      injection h with h
      have hpv : p = (k, v) := by
        rw [← hp, ← h]
      rw [hpv]
      exact List.mem_cons_self _ _
    · rw [if_neg hp] at h
      exact List.mem_cons_of_mem _ (ih h)

theorem wf_task_id (tasks : List (String × Task)) (k : String) (t : Task)
    (hw : WfTasks tasks) (h : dictGet tasks k = some t) : t.task_id = k :=
  hw (k, t) (dictGet_mem tasks k t h)

theorem wfTasks_updTask (tasks : List (String × Task)) (utid : String)
    (f : Task → Task) (hf : ∀ u, (f u).task_id = u.task_id) (hw : WfTasks tasks) :
    WfTasks (updTask tasks utid f) := by
  intro p hp
  simp only [updTask] at hp
  obtain ⟨q, hq, hpq⟩ := List.mem_map.mp hp
  by_cases h : q.1 = utid
  · rw [if_pos h] at hpq
    rw [← hpq]
    simpa [hf] using hw q hq
  · rw [if_neg h] at hpq
    rw [← hpq]
    exact hw q hq

theorem scheduleTask_wf (s : SchedState) (k : String) (hw : WfTasks s.tasks) :
    WfTasks (scheduleTask s k).tasks := by
  simp only [scheduleTask]
  cases hg : dictGet s.tasks k with
  | none => exact hw
  | some t =>
    by_cases hc : t.status = TaskStatus.cancelled
    · simp only [if_pos hc]
      exact hw
    · simp only [if_neg hc]
      by_cases hd : 0 < t.delay_seconds
      · simp only [if_pos hd, setTaskStatus]
        exact wfTasks_updTask _ _ _ (fun u => rfl)
          (wfTasks_updTask _ _ _ (fun u => rfl)
            (wfTasks_updTask _ _ _ (fun u => rfl) hw))
      · simp only [if_neg hd, setTaskStatus]
        exact wfTasks_updTask _ _ _ (fun u => rfl)
          (wfTasks_updTask _ _ _ (fun u => rfl) hw)

theorem scheduleTask_other (s : SchedState) (k tid : String) (htid : ¬ tid = k) :
    dictGet (scheduleTask s k).tasks tid = dictGet s.tasks tid := by
  simp only [scheduleTask]
  cases hg : dictGet s.tasks k with
  | none => rfl
  | some t =>
    by_cases hc : t.status = TaskStatus.cancelled
    · simp only [if_pos hc]
    · simp only [if_neg hc]
      by_cases hd : 0 < t.delay_seconds
      · simp only [if_pos hd, setTaskStatus]
        simp [dictGet_updTask, htid]
      · simp only [if_neg hd, setTaskStatus]
        simp [dictGet_updTask, htid]

theorem scheduleTask_trace_clean (s : SchedState) (k tid : String)
    (hw : WfTasks s.tasks) (htid : ¬ tid = k) :
    ∃ Δ, (scheduleTask s k).trace = s.trace ++ Δ
      ∧ ∀ eff ∈ Δ, SchedEff.mentionsTask eff tid = false := by
  have hk : ¬ (k = tid) := fun hc => htid hc.symm
  simp only [scheduleTask]
  cases hg : dictGet s.tasks k with
  | none => exact ⟨[], by simp, by simp⟩
  | some t =>
    have hid : t.task_id = k := wf_task_id _ _ _ hw hg
    by_cases hc : t.status = TaskStatus.cancelled
    · simp only [if_pos hc]
      exact ⟨[], by simp, by simp⟩
    · simp only [if_neg hc]
      by_cases hd : 0 < t.delay_seconds
      · simp only [if_pos hd, setTaskStatus]
        refine ⟨[SchedEff.setStatus k TaskStatus.scheduled, SchedEff.sleep t.delay_seconds,
                 SchedEff.setStatus k TaskStatus.running,
                 SchedEff.publish t.target_topic t.task_id (taskEventPayload t)], ?_, ?_⟩
        · simp
        · intro eff heff
          simp only [List.mem_cons, List.mem_singleton] at heff
          rcases heff with rfl | rfl | rfl | rfl | h
          · simp [SchedEff.mentionsTask, hk]
          · simp [SchedEff.mentionsTask]
          · simp [SchedEff.mentionsTask, hk]
          · simp [SchedEff.mentionsTask, hid, hk]
          · exact absurd h (List.not_mem_nil eff)
      · simp only [if_neg hd, setTaskStatus]
        refine ⟨[SchedEff.setStatus k TaskStatus.running,
                 SchedEff.publish t.target_topic t.task_id (taskEventPayload t)], ?_, ?_⟩
        · simp
        · intro eff heff
          simp only [List.mem_cons, List.mem_singleton] at heff
          rcases heff with rfl | rfl | h
          · simp [SchedEff.mentionsTask, hk]
          · simp [SchedEff.mentionsTask, hid, hk]
          · exact absurd h (List.not_mem_nil eff)

theorem checkDependents_go (cid tid : String) (t : Task) (ks : List String) :
    ∀ acc : SchedState, WfTasks acc.tasks → dictGet acc.tasks tid = some t →
      ¬ t.status = TaskStatus.pending →
      WfTasks ((ks.foldl (checkDependentsStep cid) acc)).tasks
      ∧ dictGet ((ks.foldl (checkDependentsStep cid) acc)).tasks tid = some t
      ∧ ∃ Δ, (ks.foldl (checkDependentsStep cid) acc).trace = acc.trace ++ Δ
          ∧ ∀ eff ∈ Δ, SchedEff.mentionsTask eff tid = false := by
  induction ks with
  | nil =>
    intro acc hw hg _
    exact ⟨hw, hg, [], by simp, by simp⟩
  | cons k ks ih =>
    intro acc hw hg hnp
    have hstep : WfTasks (checkDependentsStep cid acc k).tasks
        ∧ dictGet (checkDependentsStep cid acc k).tasks tid = some t
        ∧ ∃ Δ, (checkDependentsStep cid acc k).trace = acc.trace ++ Δ
            ∧ ∀ eff ∈ Δ, SchedEff.mentionsTask eff tid = false := by
      cases hgk : dictGet acc.tasks k with
      | none =>
        have hid : checkDependentsStep cid acc k = acc := by
          simp only [checkDependentsStep, hgk]
        rw [hid]
        exact ⟨hw, hg, [], by simp, by simp⟩
      | some tk =>
        have heq : checkDependentsStep cid acc k
            = if tk.status = TaskStatus.pending ∧ cid ∈ tk.depends_on
                  ∧ canSchedule acc.tasks tk = true
              then scheduleTask acc k else acc := by
          simp only [checkDependentsStep, hgk]
        rw [heq]
        by_cases hcond : tk.status = TaskStatus.pending ∧ cid ∈ tk.depends_on
            ∧ canSchedule acc.tasks tk = true
        · rw [if_pos hcond]
          have htid : ¬ tid = k := by
            intro hc
            rw [hc, hgk] at hg
            injection hg with hg
            rw [← hg] at hnp
            exact hnp hcond.1
          exact ⟨scheduleTask_wf acc k hw,
            (scheduleTask_other acc k tid htid).trans hg,
            scheduleTask_trace_clean acc k tid hw htid⟩
        · rw [if_neg hcond]
          exact ⟨hw, hg, [], by simp, by simp⟩
    obtain ⟨hw1, hg1, Δ1, htr1, hcl1⟩ := hstep
    obtain ⟨hw2, hg2, Δ2, htr2, hcl2⟩ := ih (checkDependentsStep cid acc k) hw1 hg1 hnp
    refine ⟨?_, ?_, Δ1 ++ Δ2, ?_, ?_⟩
    · rw [List.foldl_cons]
      exact hw2
    · rw [List.foldl_cons]
      exact hg2
    · rw [List.foldl_cons, htr2, htr1, List.append_assoc]
    · intro eff heff
      rcases List.mem_append.mp heff with h | h
      · exact hcl1 eff h
      · exact hcl2 eff h

/-- A task whose current status is not PENDING survives a cascading
`_check_dependents` pass untouched: its entry is unchanged and no new effect
(status write, publish) names it. -/
theorem checkDependents_preserves (s : SchedState) (cid tid : String) (t : Task)
    (hw : WfTasks s.tasks) (hget : dictGet s.tasks tid = some t)
    (hnp : ¬ t.status = TaskStatus.pending) :
    dictGet (checkDependents s cid).tasks tid = some t
    ∧ ∃ Δ, (checkDependents s cid).trace = s.trace ++ Δ
        ∧ ∀ eff ∈ Δ, SchedEff.mentionsTask eff tid = false := by
  obtain ⟨_, hg, hΔ⟩ :=
    checkDependents_go cid tid t (s.tasks.map Prod.fst) s hw hget hnp
  exact ⟨hg, hΔ⟩

/-- A minimal pending task (all defaults except id, topic, dependencies and
delay), for concrete scheduler runs. -/
def mkTask (tid : String) (topic : PyStr) (deps : List String) (delay : ℚ) : Task :=
  { task_id := tid, name := "", description := "", target_topic := topic,
    payload := [], priority := .normal, status := .pending, depends_on := deps,
    created_at := 0, started_at := none, completed_at := none, result := none,
    error := none, delay_seconds := delay }

/-- State after submitting task `"c"` (blocked on the unknown dependency
`"x"`, hence PENDING) and cancelling it. -/
def c4Cancelled : SchedState :=
  (cancel (submit ⟨[], 0, []⟩ (mkTask "c" (strL "tc") ["x"] 0)).1 "c").1

/-- Counterexample for C4: task `"c"` is CANCELLED (a terminal status), yet an
observed `task.completed` event naming its id moves it to COMPLETED —
`_on_task_completed` overwrites the status of any known task unconditionally,
so reaching a terminal status does not prevent later status changes. -/
theorem cancelled_overwritten_by_completion_event :
    (dictGet c4Cancelled.tasks "c").map Task.status = some TaskStatus.cancelled
    ∧ (dictGet (onTaskCompleted c4Cancelled "c" none).tasks "c").map Task.status
        = some TaskStatus.completed := by
  decide

/-- The status of a non-PENDING task after a cascading pass, as a projection
of `checkDependents_preserves`. -/
theorem checkDependents_status (s : SchedState) (cid tid : String) (t : Task)
    (hw : WfTasks s.tasks) (hget : dictGet s.tasks tid = some t)
    (hnp : ¬ t.status = TaskStatus.pending) :
    (dictGet (checkDependents s cid).tasks tid).map Task.status = some t.status := by
  rw [(checkDependents_preserves s cid tid t hw hget hnp).1]
  rfl

/-- An observed completion event sets a known task's status to COMPLETED
regardless of its current status. -/
theorem onTaskCompleted_status (s : SchedState) (tid : String) (t : Task)
    (r : Option String) (hw : WfTasks s.tasks) (hget : dictGet s.tasks tid = some t) :
    (dictGet (onTaskCompleted s tid r).tasks tid).map Task.status
      = some TaskStatus.completed := by
  simp only [onTaskCompleted, hget]
  have hw2 : WfTasks (updTask (updTask s.tasks tid
      (fun u => { u with status := TaskStatus.completed })) tid
      (fun u => { u with completed_at := some s.now, result := r })) :=
    wfTasks_updTask _ _ _ (fun u => rfl) (wfTasks_updTask _ _ _ (fun u => rfl) hw)
  have hg2 : dictGet (updTask (updTask s.tasks tid
      (fun u => { u with status := TaskStatus.completed })) tid
      (fun u => { u with completed_at := some s.now, result := r })) tid
      = some { t with
          status := TaskStatus.completed, completed_at := some s.now, result := r } := by
    rw [dictGet_updTask, if_pos rfl, dictGet_updTask, if_pos rfl, hget]
    rfl
  have hnp' : ¬ ({ t with
      status := TaskStatus.completed, completed_at := some s.now, result := r } : Task).status
        = TaskStatus.pending := by
    simp
  exact checkDependents_status _ tid tid
    { t with status := TaskStatus.completed, completed_at := some s.now, result := r }
    hw2 hg2 hnp'

/-- C4 (amended): COMPLETED, FAILED and CANCELLED are terminal with respect to
`cancel` (a `False` no-op that leaves the state unchanged) and to dependency
cascading (`_check_dependents` never reschedules such a task, never changes
its entry, and publishes no event carrying its id); however an observed
`task.completed` (resp. `task.failed`) event naming the task's id overwrites
its status to COMPLETED (resp. FAILED) unconditionally — the exception the
counterexample exhibits. -/
theorem terminal_statuses (s : SchedState) (tid cid : String) (t : Task)
    (r e : Option String)
    (hw : WfTasks s.tasks) (hget : dictGet s.tasks tid = some t)
    (hterm : t.status = TaskStatus.completed ∨ t.status = TaskStatus.failed
      ∨ t.status = TaskStatus.cancelled) :
    cancel s tid = (s, false)
    ∧ dictGet (checkDependents s cid).tasks tid = some t
    ∧ (∃ Δ, (checkDependents s cid).trace = s.trace ++ Δ
        ∧ ∀ eff ∈ Δ, SchedEff.mentionsTask eff tid = false)
    ∧ (dictGet (onTaskCompleted s tid r).tasks tid).map Task.status
        = some TaskStatus.completed
    ∧ (dictGet (onTaskFailed s tid e).tasks tid).map Task.status
        = some TaskStatus.failed := by
  have hnp : ¬ t.status = TaskStatus.pending := by
    rcases hterm with h | h | h <;> simp [h]
  have hnps : ¬ (t.status = TaskStatus.pending ∨ t.status = TaskStatus.scheduled) := by
    rcases hterm with h | h | h <;> simp [h]
  have hpres := checkDependents_preserves s cid tid t hw hget hnp
  refine ⟨?_, hpres.1, hpres.2, onTaskCompleted_status s tid t r hw hget, ?_⟩
  · simp only [cancel, hget]
    rw [if_neg hnps]
  · simp only [onTaskFailed, hget, setTaskStatus]
    rw [dictGet_updTask, if_pos rfl, dictGet_updTask, if_pos rfl, hget]
    rfl

/-- A task already COMPLETED, for the C4 witness. -/
def c4DoneTask : Task := { mkTask "d" (strL "td") [] 0 with status := TaskStatus.completed }

/-- A scheduler state holding the completed task `"d"`. -/
def c4TermState : SchedState := ⟨[("d", c4DoneTask)], 0, []⟩

/-- Witness for C4 (amended) at the completed task `"d"`. -/
theorem terminal_statuses_witness :
    cancel c4TermState "d" = (c4TermState, false)
    ∧ dictGet (checkDependents c4TermState "z").tasks "d" = some c4DoneTask
    ∧ (dictGet (onTaskCompleted c4TermState "d" none).tasks "d").map Task.status
        = some TaskStatus.completed
    ∧ (dictGet (onTaskFailed c4TermState "d" none).tasks "d").map Task.status
        = some TaskStatus.failed := by
  have h := terminal_statuses c4TermState "d" "z" c4DoneTask none none
      (by decide) (by decide) (Or.inl rfl)
  exact ⟨h.1, h.2.1, h.2.2.2.1, h.2.2.2.2⟩

/-- The run of `submit_many` on a delayed task `"a"` followed by an
undelayed task `"b"`. -/
def c5Run : SchedState :=
  (submitMany ⟨[], 0, []⟩ [mkTask "a" (strL "t.a") [] 1, mkTask "b" (strL "t.b") [] 0]).1

/-- Counterexample for C5: the delay suspension of `_schedule_task` is awaited
inline, not spawned as an independent unit. Submitting `[a (delay 1), b]`
through `submit_many` stamps `b.started_at` at clock 1 — after `a`'s full
delay — and every effect of `b`'s submission appears after `a`'s sleep in the
trace: `a`'s suspension blocked the submit of the other task instead of
letting it proceed during the delay. -/
theorem delay_blocks_other_submits :
    (dictGet c5Run.tasks "b").map Task.started_at = some (some 1)
    ∧ c5Run.now = 1
    ∧ c5Run.trace
      = [SchedEff.setStatus "a" TaskStatus.scheduled, SchedEff.sleep 1,
         SchedEff.setStatus "a" TaskStatus.running,
         SchedEff.publish (strL "t.a") "a"
           [("task_id", "a"), ("name", ""), ("description", ""), ("content", "")],
         SchedEff.setStatus "b" TaskStatus.running,
         SchedEff.publish (strL "t.b") "b"
           [("task_id", "b"), ("name", ""), ("description", ""), ("content", "")]] := by
  refine ⟨?_, ?_, ?_⟩ <;>
    simp +decide [c5Run, submitMany, submit, dictSet, dictGet, canSchedule, scheduleTask,
      setTaskStatus, updTask, mkTask, taskEventPayload, pyMerge, strL]

/-- C5 (amended): a task that becomes eligible with `delay_seconds > 0` is
first marked SCHEDULED, then the scheduler suspends for the delay inline (the
suspension runs in the submitting/cascading call chain, so work sequenced
after it waits — see the counterexample), and only then is the task marked
RUNNING, `started_at` stamped with the post-delay clock, and exactly one
event published on its `target_topic`, in exactly that order. -/
theorem delayed_schedule_inline (s : SchedState) (tid : String) (t : Task)
    (hget : dictGet s.tasks tid = some t)
    (hnc : ¬ t.status = TaskStatus.cancelled) (hd : 0 < t.delay_seconds) :
    (scheduleTask s tid).trace
      = s.trace ++ [SchedEff.setStatus tid TaskStatus.scheduled,
                    SchedEff.sleep t.delay_seconds,
                    SchedEff.setStatus tid TaskStatus.running,
                    SchedEff.publish t.target_topic t.task_id (taskEventPayload t)]
    ∧ dictGet (scheduleTask s tid).tasks tid
        = some { t with status := TaskStatus.running,
                        started_at := some (s.now + t.delay_seconds) }
    ∧ (scheduleTask s tid).now = s.now + t.delay_seconds := by
  simp only [scheduleTask, hget, if_neg hnc, if_pos hd, setTaskStatus]
  refine ⟨?_, ?_, ?_⟩
  · simp
  · rw [dictGet_updTask, if_pos rfl, dictGet_updTask, if_pos rfl, dictGet_updTask, if_pos rfl,
      hget]
    rfl
  · trivial

/-- A scheduler state holding the pending task `"w5"` with delay 1. -/
def c5WitState : SchedState := ⟨[("w5", mkTask "w5" (strL "tw") [] 1)], 0, []⟩

/-- Witness for C5 (amended) at the delayed task `"w5"`. -/
theorem delayed_schedule_inline_witness :
    (scheduleTask c5WitState "w5").trace
      = [SchedEff.setStatus "w5" TaskStatus.scheduled, SchedEff.sleep 1,
         SchedEff.setStatus "w5" TaskStatus.running,
         SchedEff.publish (strL "tw") "w5" (taskEventPayload (mkTask "w5" (strL "tw") [] 1))]
    ∧ dictGet (scheduleTask c5WitState "w5").tasks "w5"
        = some { mkTask "w5" (strL "tw") [] 1 with
                 status := TaskStatus.running, started_at := some 1 }
    ∧ (scheduleTask c5WitState "w5").now = 1 := by
  have h := delayed_schedule_inline c5WitState "w5" (mkTask "w5" (strL "tw") [] 1)
      (by decide) (by decide) (by decide)
  refine ⟨?_, ?_, ?_⟩
  · rw [h.1]
    decide
  · rw [h.2.1]
    simp +decide [c5WitState, mkTask]
  · rw [h.2.2]
    simp +decide [c5WitState, mkTask]

/-! ## Agent runtime — `src/swarmx/core/agent.py` (claims C3 and C6)

`_handle_event` is modelled on an observable agent record (lifecycle state
plus the events emitted through `emit`); `on_event` is a parameter, as it is
the subclass-overridable step. A raised exception in `on_event` is its
returning `some msg` alongside the agent as mutated up to the raise point.
`think` is modelled on the message history with the provider's `complete`
as a function parameter. -/

/-- `AgentState` lifecycle enum. -/
inductive AgentState where
  | created
  | initializing
  | idle
  | processing
  | error
  | shutdown
deriving DecidableEq, Repr

/-- Observable agent record for `_handle_event`. -/
structure AgentModel where
  agent_id : PyStr
  state : AgentState
  emitted : List (PyStr × List (String × PyStr))

/-- `Agent.emit`: publish an event from this agent (recorded in order). -/
def emit (a : AgentModel) (topic : PyStr) (payload : List (String × PyStr)) : AgentModel :=
  { a with emitted := a.emitted ++ [(topic, payload)] }

/-- `Agent._handle_event`: set PROCESSING, run `on_event`; on an uncaught
exception set ERROR and emit `agent.error` carrying the agent id, the
triggering topic, and the generic `"Processing failed"` indicator; the
`finally` block resets to IDLE only while the state is still PROCESSING. -/
def handleEvent (a : AgentModel) (etopic : PyStr)
    (on_event : AgentModel → AgentModel × Option String) : AgentModel :=
  let a1 := { a with state := AgentState.processing }
  let r := on_event a1
  let a2 :=
    match r.2 with
    | none => r.1
    | some _ =>
      let ae := { r.1 with state := AgentState.error }
      emit ae (strL "agent.error")
        [("agent_id", ae.agent_id), ("event_topic", etopic),
         ("error", strL "Processing failed")]
  if a2.state = AgentState.processing then { a2 with state := AgentState.idle } else a2

/-- An idle agent used in the C3 counterexample. -/
def c3Agent : AgentModel := ⟨strL "a1", AgentState.idle, []⟩

/-- An `on_event` that raises without mutating the agent. -/
def c3Fault : AgentModel → AgentModel × Option String := fun a => (a, some "boom")

/-- Counterexample for C3: after a faulting `on_event` the handler leaves the
agent in ERROR, not IDLE — the `finally` block resets to IDLE only when the
state is still PROCESSING, and the except branch has just set it to ERROR.
The `agent.error` event is emitted as claimed, but the agent does not return
to IDLE. -/
theorem agent_error_stays_error :
    (handleEvent c3Agent (strL "task.created") c3Fault).state = AgentState.error
    ∧ ¬ (handleEvent c3Agent (strL "task.created") c3Fault).state = AgentState.idle
    ∧ (handleEvent c3Agent (strL "task.created") c3Fault).emitted
      = [(strL "agent.error",
          [("agent_id", strL "a1"), ("event_topic", strL "task.created"),
           ("error", strL "Processing failed")])] := by
  decide

/-- C3 (amended): on an uncaught fault during handling the agent transitions
to ERROR and emits one `agent.error` event carrying the agent id, the
triggering topic, and the generic `"Processing failed"` indicator (not the
raw fault detail); it then REMAINS in ERROR — the reset to IDLE in the
`finally` block applies only to the successful path, where the state is still
PROCESSING. -/
theorem agent_fault_to_error_event (a : AgentModel) (etopic : PyStr)
    (f : AgentModel → AgentModel × Option String)
    (hfault : (f { a with state := AgentState.processing }).2.isSome = true)
    (hid : (f { a with state := AgentState.processing }).1.agent_id = a.agent_id) :
    (handleEvent a etopic f).state = AgentState.error
    ∧ (handleEvent a etopic f).emitted
      = (f { a with state := AgentState.processing }).1.emitted
        ++ [(strL "agent.error",
             [("agent_id", a.agent_id), ("event_topic", etopic),
              ("error", strL "Processing failed")])] := by
  obtain ⟨msg, hmsg⟩ := Option.isSome_iff_exists.mp hfault
  simp [handleEvent, hmsg, emit, hid]

/-- Witness for C3 (amended) at a concrete idle agent and a fault that leaves
the agent untouched. -/
theorem agent_fault_to_error_event_witness :
    (handleEvent ⟨strL "w3", AgentState.idle, []⟩ (strL "t.w") c3Fault).state
        = AgentState.error
    ∧ (handleEvent ⟨strL "w3", AgentState.idle, []⟩ (strL "t.w") c3Fault).emitted
        = [(strL "agent.error",
            [("agent_id", strL "w3"), ("event_topic", strL "t.w"),
             ("error", strL "Processing failed")])] := by
  have h := agent_fault_to_error_event ⟨strL "w3", AgentState.idle, []⟩ (strL "t.w")
      c3Fault rfl rfl
  exact ⟨h.1, h.2⟩

/-- Message roles. -/
inductive Role where
  | system
  | user
  | assistant
deriving DecidableEq, Repr

/-- A role-tagged message. -/
structure Message where
  role : Role
  content : String
deriving DecidableEq, Repr

/-- The history management of `Agent.think`: append the input as a user-role
message; when the history exceeds `max_history`, keep the system-role messages
plus the Python slice `history[-(max_history - len(system_msgs)):]`; call the
provider on the result and append its response message. -/
def think (max_history : Nat) (complete : List Message → Message)
    (history : List Message) (user_input : String) : List Message :=
  let h1 := history ++ [⟨Role.user, user_input⟩]
  let h2 :=
    if max_history < h1.length then
      let system_msgs := h1.filter (fun m => decide (m.role = Role.system))
      let recent := pySliceFrom h1 (-((max_history : Int) - system_msgs.length))
      system_msgs ++ recent
    else h1
  h2 ++ [complete h2]

/-- Iterated think cycles over a list of inputs. -/
def thinkCycles (max_history : Nat) (complete : List Message → Message)
    (history : List Message) (inputs : List String) : List Message :=
  inputs.foldl (think max_history complete) history

/-- A provider stub returning a fixed assistant message. -/
def c6Prov1 : List Message → Message := fun _ => ⟨Role.assistant, "a"⟩

/-- A provider stub echoing the last message's content. -/
def c6EchoProv : List Message → Message :=
  fun h => ⟨Role.assistant, "re:" ++ (h.getLastD ⟨Role.user, ""⟩).content⟩

/-- Counterexample for C6: with `max_history = 1` and one system prompt, a
single think step leaves the history as `[S, S, U, A]` — the slice
`history[-(1 - 1):]` is `history[-0:]`, the whole list, so the "trimmed"
history duplicates the system message and grows past the cap instead of being
all system messages plus at most the cap of recent entries. -/
theorem trim_cap_one_grows_history :
    think 1 c6Prov1 [⟨Role.system, "S"⟩] "u"
      = [⟨Role.system, "S"⟩, ⟨Role.system, "S"⟩, ⟨Role.user, "u"⟩, ⟨Role.assistant, "a"⟩]
    ∧ (think 1 c6Prov1 [⟨Role.system, "S"⟩] "u").length = 4
    ∧ ((think 1 c6Prov1 [⟨Role.system, "S"⟩] "u").filter
        (fun m => decide (m.role = Role.system))).length = 2 := by
  decide

/-- C6 (amended): each think step appends the input as a user-role message;
when the cap exceeds the number of system messages (one system prompt and
`max_history ≥ 2`) and the grown history exceeds `max_history`, it is trimmed
to the system message followed by the most recent entries, filling the cap
exactly and preserving relative order (the trimmed history is a subsequence
of the pre-trim history); in particular with `max_history = 5` and one system
prompt, after 10 think cycles the history is the system message plus the 5
most recent messages in original relative order. (With `max_history` not
exceeding the system-message count the trim misbehaves — see the
counterexample.) -/
theorem history_trimming (max_history : Nat) (complete : List Message → Message)
    (sp inp : String) (rest : List Message)
    (hmh : 2 ≤ max_history)
    (hrest : ∀ m ∈ rest, ¬ m.role = Role.system)
    (hlong : max_history < rest.length + 2) :
    (think max_history complete (Message.mk Role.system sp :: rest) inp
      = (Message.mk Role.system sp ::
          (rest ++ [Message.mk Role.user inp]).drop (rest.length + 2 - max_history))
        ++ [complete (Message.mk Role.system sp ::
          (rest ++ [Message.mk Role.user inp]).drop (rest.length + 2 - max_history))]
    ∧ (Message.mk Role.system sp ::
        (rest ++ [Message.mk Role.user inp]).drop (rest.length + 2 - max_history)).length
        = max_history
    ∧ (Message.mk Role.system sp ::
        (rest ++ [Message.mk Role.user inp]).drop (rest.length + 2 - max_history)).Sublist
        (Message.mk Role.system sp :: (rest ++ [Message.mk Role.user inp])))
    ∧ thinkCycles 5 c6EchoProv [⟨Role.system, "S"⟩]
        ["m1", "m2", "m3", "m4", "m5", "m6", "m7", "m8", "m9", "m10"]
      = [⟨Role.system, "S"⟩, ⟨Role.assistant, "re:m8"⟩, ⟨Role.user, "m9"⟩,
         ⟨Role.assistant, "re:m9"⟩, ⟨Role.user, "m10"⟩, ⟨Role.assistant, "re:m10"⟩] := by
  have hfil : (Message.mk Role.system sp :: (rest ++ [Message.mk Role.user inp])).filter
      (fun m => decide (m.role = Role.system)) = [Message.mk Role.system sp] := by
    simp only [List.filter_cons, decide_eq_true_eq]
    have hnil : (rest ++ [Message.mk Role.user inp]).filter
        (fun m => decide (m.role = Role.system)) = [] := by
      rw [List.filter_eq_nil_iff]
      intro m hm
      rcases List.mem_append.mp hm with h | h
      · simpa using hrest m h
      · rw [List.mem_singleton] at h
        subst h
        simp
    simp [hnil]
  have hcond : max_history
      < ((Message.mk Role.system sp :: rest) ++ [Message.mk Role.user inp]).length := by
    simp only [List.length_append, List.length_cons, List.length_singleton]
    omega
  have hneg : ¬ ((0 : Int) ≤ -((max_history : Int) - ([Message.mk Role.system sp]).length)) := by
    simp only [List.length_singleton, Nat.cast_one]
    omega
  have htn : ((max_history : Int) - ([Message.mk Role.system sp]).length).toNat
      = max_history - 1 := by
    simp only [List.length_singleton, Nat.cast_one]
    omega
  refine ⟨⟨?_, ?_, ?_⟩, ?_⟩
  · simp only [think, List.cons_append, if_pos hcond, hfil, pySliceFrom, if_neg hneg,
      Int.neg_neg, htn]
    have hlen : (Message.mk Role.system sp :: (rest ++ [Message.mk Role.user inp])).length
        - (max_history - 1) = (rest.length + 2 - max_history) + 1 := by
      simp only [List.length_cons, List.length_append, List.length_nil]
      omega
    rw [hlen, List.drop_succ_cons]
    have hc2 : max_history < rest.length + 1 + 1 := by omega
    simp [hc2]
  · simp only [List.length_cons, List.length_drop, List.length_append,
      List.length_singleton, List.length_nil]
    omega
  · exact List.cons_sublist_cons.mpr (List.drop_sublist _ _)
  · decide

/-- Witness for C6 (amended): with cap 3, system prompt `"S"`, two non-system
messages and a new input, the trim keeps `[S]` plus the last two entries and
fills the cap. -/
theorem history_trimming_witness :
    think 3 c6Prov1 [⟨Role.system, "S"⟩, ⟨Role.user, "p"⟩, ⟨Role.assistant, "q"⟩] "r"
      = [⟨Role.system, "S"⟩, ⟨Role.assistant, "q"⟩, ⟨Role.user, "r"⟩, ⟨Role.assistant, "a"⟩]
    ∧ thinkCycles 5 c6EchoProv [⟨Role.system, "S"⟩]
        ["m1", "m2", "m3", "m4", "m5", "m6", "m7", "m8", "m9", "m10"]
      = [⟨Role.system, "S"⟩, ⟨Role.assistant, "re:m8"⟩, ⟨Role.user, "m9"⟩,
         ⟨Role.assistant, "re:m9"⟩, ⟨Role.user, "m10"⟩, ⟨Role.assistant, "re:m10"⟩] := by
  have h := history_trimming 3 c6Prov1 "S" "r" [⟨Role.user, "p"⟩, ⟨Role.assistant, "q"⟩]
      (by decide) (by decide) (by decide)
  exact ⟨(h.1).1.trans (by decide), h.2⟩

end SwarmX
